import Mathlib

/-!
Verification of the `fwilliamsca/cpp-simd-utils` repository.

Part 1 embeds `src/include/fwilliamsca/memory/ring_buffer.h`:
the single-producer single-consumer ring buffer `SPSCRingBuffer<T, Capacity>`.
The C++ state is the pair of cursors `head_` / `tail_` (both `size_t`,
initialised to 0) together with the slot array `buffer_`; a slot that has
been placement-constructed and not yet destructed holds a value, every
other slot is uninitialised.  We model the slot array as `Nat → Option α`
(`some v` = live constructed value, `none` = uninitialised or destructed)
and the two cursors as `Nat`, with the capacity passed explicitly in place
of the C++ template parameter.

Part 2 embeds `src/include/fwilliamsca/simd/intrinsics.h`:
the scalar fallback `MathKernel<>::add` and the AVX-512 specialisation
`MathKernel<ISA::AVX512_F>::add`.  Arrays of doubles are modelled as
functions `Nat → α` over an arbitrary additive carrier, since elementwise
addition applies the same binary `+` at the same indices in both kernels:
the comparison between the two is purely about which indices get written.
-/

/-- The ring-buffer state: `head_` (consumer cursor), `tail_` (producer
cursor) and the slot array `buffer_`. -/
structure SPSCRingBuffer (α : Type) where
  head : Nat
  tail : Nat
  buffer : Nat → Option α

/-- Pointwise update of the slot array, modelling a placement-construct
(`some v`) or an explicit destructor call (`none`) at index `i`. -/
def slotWrite (f : Nat → Option α) (i : Nat) (v : Option α) : Nat → Option α :=
  fun j => if j = i then v else f j

/-- The cursor advance `(c + 1) & (Capacity - 1)` appearing in both
`try_push` (line 57) and `try_pop` (line 90) of `ring_buffer.h`. -/
def cursorAdvance (Capacity c : Nat) : Nat :=
  (c + 1) &&& (Capacity - 1)

/-- `SPSCRingBuffer::try_push` (ring_buffer.h lines 54-70): reads
`tail_`, computes `next_tail`, fails if `next_tail == head_`, otherwise
constructs the item into `buffer_[current_tail]` and stores `next_tail`
into `tail_`.  Returns the C++ `bool` result next to the new state. -/
def try_push (Capacity : Nat) (item : α) (s : SPSCRingBuffer α) :
    Bool × SPSCRingBuffer α :=
  let current_tail := s.tail
  let next_tail := cursorAdvance Capacity current_tail
  if next_tail = s.head then
    (false, s)
  else
    (true, { head := s.head, tail := next_tail,
             buffer := slotWrite s.buffer current_tail (some item) })

/-- `SPSCRingBuffer::try_pop` (ring_buffer.h lines 76-94): reads `head_`,
fails if it equals `tail_`, otherwise moves `buffer_[current_head]` out,
destructs the slot, and stores the advanced cursor into `head_`.  The
triple is (C++ `bool` result, value moved into `out_item`, new state). -/
def try_pop (Capacity : Nat) (s : SPSCRingBuffer α) :
    Bool × Option α × SPSCRingBuffer α :=
  let current_head := s.head
  if current_head = s.tail then
    (false, none, s)
  else
    let out_item := s.buffer current_head
    let next_head := cursorAdvance Capacity current_head
    (true, out_item,
      { head := next_head, tail := s.tail,
        buffer := slotWrite s.buffer current_head none })

/-- A freshly constructed buffer: `head_{0}`, `tail_{0}`, all slots
uninitialised (the constructor only allocates raw memory). -/
def initBuffer (α : Type) : SPSCRingBuffer α :=
  { head := 0, tail := 0, buffer := fun _ => none }

/-- The `static_assert` condition of `SPSCRingBuffer` (ring_buffer.h
lines 28-29): `(Capacity != 0) && ((Capacity & (Capacity - 1)) == 0)`. -/
def capacityCheck (Capacity : Nat) : Bool :=
  (Capacity != 0) && ((Capacity &&& (Capacity - 1)) == 0)

/-- The spec's construction condition, stated from its words: capacity
must be a power of two with `N ≥ 2`.  Kept separate from `capacityCheck`
(which embeds the code) so the two can be compared. -/
def capacitySpecRequirement (N : Nat) : Prop :=
  2 ≤ N ∧ ∃ j, N = 2 ^ j

/-- One producer/consumer operation applied to the channel. -/
inductive ChanOp (α : Type) where
  | push (x : α)
  | pop

/-- A channel state together with the history of successfully sent and
successfully received items, in order. -/
structure ChanTrace (α : Type) where
  state : SPSCRingBuffer α
  sent : List α
  received : List α

/-- Apply one operation to a trace, recording successful sends and
receives. -/
def stepOp (Capacity : Nat) (t : ChanTrace α) : ChanOp α → ChanTrace α
  | ChanOp.push x =>
      let r := try_push Capacity x t.state
      { state := r.2,
        sent := if r.1 then t.sent ++ [x] else t.sent,
        received := t.received }
  | ChanOp.pop =>
      let r := try_pop Capacity t.state
      { state := r.2.2,
        sent := t.sent,
        received := if r.1 then t.received ++ r.2.1.toList else t.received }

/-- Run a sequence of operations from a trace. -/
def runTrace (Capacity : Nat) (ops : List (ChanOp α)) (t : ChanTrace α) :
    ChanTrace α :=
  ops.foldl (stepOp Capacity) t

/-- The trace of a freshly constructed channel. -/
def initTrace (α : Type) : ChanTrace α :=
  { state := initBuffer α, sent := [], received := [] }

/-- Modular cursor distance `(a + N - b) % N`: for in-range cursors this
is the number of live slots from cursor `b` up to cursor `a`. -/
def distN (N a b : Nat) : Nat :=
  (a + N - b) % N

/-- Number of live elements held by the buffer: the cursor distance from
`head_` to `tail_`. -/
def liveCount (N : Nat) (s : SPSCRingBuffer α) : Nat :=
  distN N s.tail s.head

/-- The slot contents from `head_` to `tail_` in ring order: the abstract
queue the buffer represents.  Entries are `Option` values straight from
the slot array; the reachability invariant shows they are all `some`. -/
def liveOpt (N : Nat) (s : SPSCRingBuffer α) : List (Option α) :=
  (List.range (liveCount N s)).map (fun k => s.buffer ((s.head + k) % N))

/-- Push every item of `xs` in order, conjoining the success results. -/
def pushAll (N : Nat) (xs : List α) (s : SPSCRingBuffer α) :
    Bool × SPSCRingBuffer α :=
  xs.foldl (fun acc x =>
    let r := try_push N x acc.2
    (acc.1 && r.1, r.2)) (true, s)

/-! ### Modular cursor arithmetic -/

/-- For a power-of-two capacity the bitmask advance is the modulo advance. -/
theorem cursorAdvance_two_pow (k c : Nat) :
    cursorAdvance (2 ^ k) c = (c + 1) % 2 ^ k := by
  simp [cursorAdvance, Nat.and_pow_two_sub_one_eq_mod]

theorem distN_lt {N : Nat} (hN : 0 < N) (a b : Nat) : distN N a b < N :=
  Nat.mod_lt _ hN

theorem distN_self (N a : Nat) : distN N a a = 0 := by
  unfold distN
  have h : a + N - a = N := by omega
  rw [h, Nat.mod_self]

theorem distN_closed {N a b : Nat} (ha : a < N) (hb : b < N) :
    distN N a b = if b ≤ a then a - b else a + N - b := by
  unfold distN
  rcases le_or_lt b a with h | h
  · have h1 : a + N - b ≥ N := by omega
    have h2 : a + N - b - N = a - b := by omega
    rw [Nat.mod_eq_sub_mod h1, h2, Nat.mod_eq_of_lt (by omega), if_pos h]
  · rw [Nat.mod_eq_of_lt (by omega), if_neg (by omega)]

theorem distN_eq_zero_iff {N a b : Nat} (ha : a < N) (hb : b < N) :
    distN N a b = 0 ↔ a = b := by
  rw [distN_closed ha hb]
  split_ifs <;> omega

theorem succ_mod_closed {N a : Nat} (ha : a < N) :
    (a + 1) % N = if a + 1 = N then 0 else a + 1 := by
  split_ifs with h
  · rw [h, Nat.mod_self]
  · exact Nat.mod_eq_of_lt (by omega)

theorem distN_succ_left {N b : Nat} (hb : b ≤ N) (a : Nat) :
    distN N ((a + 1) % N) b = (distN N a b + 1) % N := by
  unfold distN
  calc ((a + 1) % N + N - b) % N
      = ((a + 1) % N + (N - b)) % N := by congr 1; omega
    _ = (a + 1 + (N - b)) % N := Nat.mod_add_mod _ _ _
    _ = (a + N - b + 1) % N := by congr 1; omega
    _ = ((a + N - b) % N + 1) % N := (Nat.mod_add_mod _ _ _).symm

theorem distN_succ_right {N a b : Nat} (ha : a < N) (hb : b < N) (hne : a ≠ b) :
    distN N a ((b + 1) % N) = distN N a b - 1 := by
  rw [succ_mod_closed hb]
  split_ifs with h
  · rw [distN_closed ha (by omega), distN_closed ha hb]
    split_ifs <;> omega
  · rw [distN_closed ha (by omega), distN_closed ha hb]
    split_ifs <;> omega

theorem distN_idx {N b : Nat} (hb : b ≤ N) {k : Nat} (hk : k < N) :
    distN N ((b + k) % N) b = k := by
  unfold distN
  calc ((b + k) % N + N - b) % N
      = ((b + k) % N + (N - b)) % N := by congr 1; omega
    _ = (b + k + (N - b)) % N := Nat.mod_add_mod _ _ _
    _ = (k + N) % N := by congr 1; omega
    _ = k % N := Nat.add_mod_right _ _
    _ = k := Nat.mod_eq_of_lt hk

theorem distN_add {N a b : Nat} (hb : b ≤ N) (ha : a < N) :
    (b + distN N a b) % N = a := by
  unfold distN
  calc (b + (a + N - b) % N) % N
      = ((a + N - b) % N + b) % N := by rw [Nat.add_comm]
    _ = (a + N - b + b) % N := Nat.mod_add_mod _ _ _
    _ = (a + N) % N := by congr 1; omega
    _ = a % N := Nat.add_mod_right _ _
    _ = a := Nat.mod_eq_of_lt ha

/-! ### State-transition lemmas for the two operations -/

/-- A successful `try_push` keeps the head, stays in range, and appends
the pushed item to the live queue. -/
theorem liveOpt_push {α : Type} {k N : Nat} (hk : N = 2 ^ k) (x : α)
    (s : SPSCRingBuffer α) (hh : s.head < N) (ht : s.tail < N)
    (hfail : cursorAdvance N s.tail ≠ s.head) :
    (try_push N x s).1 = true
    ∧ (try_push N x s).2.head = s.head
    ∧ (try_push N x s).2.tail < N
    ∧ liveOpt N (try_push N x s).2 = liveOpt N s ++ [some x] := by
  have hca : ∀ c, cursorAdvance N c = (c + 1) % N := by
    intro c
    rw [hk, cursorAdvance_two_pow]
  have hN : 0 < N := hk ▸ Nat.two_pow_pos k
  rw [hca] at hfail
  have hpush : try_push N x s
      = (true, { head := s.head, tail := (s.tail + 1) % N,
                 buffer := slotWrite s.buffer s.tail (some x) }) := by
    simp only [try_push, hca]
    rw [if_neg hfail]
  set d := distN N s.tail s.head with hd
  have hdlt : d < N := distN_lt hN _ _
  have hdne : d ≠ N - 1 := by
    intro hEq
    apply hfail
    rw [← distN_eq_zero_iff (Nat.mod_lt _ hN) hh,
        distN_succ_left (le_of_lt hh), ← hd, hEq]
    have h1 : N - 1 + 1 = N := by omega
    rw [h1, Nat.mod_self]
  have hcount : liveCount N (try_push N x s).2 = d + 1 := by
    rw [hpush]
    show distN N ((s.tail + 1) % N) s.head = d + 1
    rw [distN_succ_left (le_of_lt hh), ← hd, succ_mod_closed hdlt,
        if_neg (by omega)]
  refine ⟨by rw [hpush], by rw [hpush], ?_, ?_⟩
  · rw [hpush]
    exact Nat.mod_lt _ hN
  · unfold liveOpt
    rw [hcount, List.range_succ, List.map_append]
    have hhead : (try_push N x s).2.head = s.head := by rw [hpush]
    rw [hhead]
    congr 1
    · apply List.map_congr_left
      intro j hj
      rw [List.mem_range] at hj
      have hjd : (s.head + j) % N ≠ s.tail := by
        intro hEq
        have h1 : distN N ((s.head + j) % N) s.head = j :=
          distN_idx (le_of_lt hh) (lt_trans hj hdlt)
        rw [hEq, ← hd] at h1
        omega
      rw [hpush]
      show slotWrite s.buffer s.tail (some x) ((s.head + j) % N)
          = s.buffer ((s.head + j) % N)
      unfold slotWrite
      rw [if_neg hjd]
    · have htail : (s.head + d) % N = s.tail := by
        rw [hd]
        exact distN_add (le_of_lt hh) ht
      rw [hpush]
      show [slotWrite s.buffer s.tail (some x) ((s.head + d) % N)] = [some x]
      rw [htail]
      unfold slotWrite
      rw [if_pos rfl]

/-- A successful `try_pop` returns the slot at the head, keeps the tail,
stays in range, and removes the head of the live queue. -/
theorem liveOpt_pop {α : Type} {k N : Nat} (hk : N = 2 ^ k)
    (s : SPSCRingBuffer α) (hh : s.head < N) (ht : s.tail < N)
    (hne : s.head ≠ s.tail) :
    (try_pop N s).1 = true
    ∧ (try_pop N s).2.1 = s.buffer s.head
    ∧ (try_pop N s).2.2.head < N
    ∧ (try_pop N s).2.2.tail = s.tail
    ∧ liveOpt N s = s.buffer s.head :: liveOpt N (try_pop N s).2.2 := by
  have hca : ∀ c, cursorAdvance N c = (c + 1) % N := by
    intro c
    rw [hk, cursorAdvance_two_pow]
  have hN : 0 < N := hk ▸ Nat.two_pow_pos k
  have hpop : try_pop N s
      = (true, s.buffer s.head,
         { head := (s.head + 1) % N, tail := s.tail,
           buffer := slotWrite s.buffer s.head none }) := by
    simp only [try_pop, hca]
    rw [if_neg hne]
  set d := distN N s.tail s.head with hd
  have hdlt : d < N := distN_lt hN _ _
  have hdne : d ≠ 0 := by
    rw [hd, Ne, distN_eq_zero_iff ht hh]
    omega
  have hcount : liveCount N (try_pop N s).2.2 = d - 1 := by
    rw [hpop]
    show distN N s.tail ((s.head + 1) % N) = d - 1
    rw [distN_succ_right ht hh (by omega), ← hd]
  refine ⟨by rw [hpop], by rw [hpop], ?_, by rw [hpop], ?_⟩
  · rw [hpop]
    exact Nat.mod_lt _ hN
  · unfold liveOpt
    rw [hcount]
    have hsplit : d = (d - 1) + 1 := by omega
    rw [show liveCount N s = d from rfl, hsplit, List.range_succ_eq_map,
        List.map_cons, List.map_map]
    have hzero : s.buffer ((s.head + 0) % N) = s.buffer s.head := by
      rw [Nat.add_zero, Nat.mod_eq_of_lt hh]
    rw [hzero]
    congr 1
    apply List.map_congr_left
    intro j hj
    rw [List.mem_range] at hj
    have hj1 : j + 1 < N := by omega
    have hidx : ((s.head + 1) % N + j) % N = (s.head + (j + 1)) % N := by
      rw [Nat.mod_add_mod]
      congr 1
      omega
    have hne2 : (s.head + (j + 1)) % N ≠ s.head := by
      intro hEq
      have h1 : distN N ((s.head + (j + 1)) % N) s.head = j + 1 :=
        distN_idx (le_of_lt hh) hj1
      rw [hEq, distN_self] at h1
      omega
    rw [hpop]
    show s.buffer ((s.head + (Nat.succ j)) % N)
        = slotWrite s.buffer s.head none (((s.head + 1) % N + j) % N)
    rw [hidx]
    unfold slotWrite
    rw [if_neg hne2]

/-! ### The channel invariant: sent = received ++ live queue -/

/-- The invariant tying the cursors and slots to the operation history:
both cursors are in range and the successfully sent items are exactly the
successfully received items followed by the live slot contents. -/
def ChanInv (N : Nat) (t : ChanTrace α) : Prop :=
  t.state.head < N ∧ t.state.tail < N ∧
  t.sent.map some = t.received.map some ++ liveOpt N t.state

theorem chanInv_init {α : Type} {N : Nat} (hN : 0 < N) :
    ChanInv N (initTrace α) := by
  refine ⟨hN, hN, ?_⟩
  simp [initTrace, liveOpt, liveCount, initBuffer, distN_self]

theorem chanInv_step {α : Type} {k N : Nat} (hk : N = 2 ^ k)
    {t : ChanTrace α} (op : ChanOp α) (h : ChanInv N t) :
    ChanInv N (stepOp N t op) := by
  obtain ⟨hh, ht, hlist⟩ := h
  cases op with
  | push x =>
      by_cases hfull : cursorAdvance N t.state.tail = t.state.head
      · have hpush : try_push N x t.state = (false, t.state) := by
          simp only [try_push]
          rw [if_pos hfull]
        simp only [stepOp, hpush]
        exact ⟨hh, ht, hlist⟩
      · obtain ⟨h1, h2, h3, h4⟩ := liveOpt_push hk x t.state hh ht hfull
        simp only [stepOp, h1, if_pos]
        refine ⟨h2 ▸ hh, h3, ?_⟩
        rw [List.map_append, hlist, h4, List.map_cons, List.map_nil,
            List.append_assoc]
  | pop =>
      by_cases hemp : t.state.head = t.state.tail
      · have hpop : try_pop N t.state = (false, none, t.state) := by
          simp only [try_pop]
          rw [if_pos hemp]
        simp only [stepOp, hpop]
        exact ⟨hh, ht, hlist⟩
      · obtain ⟨h1, h2, h3, h4, h5⟩ := liveOpt_pop hk t.state hh ht hemp
        have hv : ∃ v, t.state.buffer t.state.head = some v := by
          have hmem : t.state.buffer t.state.head ∈ t.sent.map some := by
            rw [hlist, h5]
            exact List.mem_append_right _ (List.mem_cons_self _ _)
          rw [List.mem_map] at hmem
          obtain ⟨v, _, hvEq⟩ := hmem
          exact ⟨v, hvEq.symm⟩
        obtain ⟨v, hv⟩ := hv
        simp only [stepOp, h1, if_pos]
        refine ⟨h3, h4 ▸ ht, ?_⟩
        rw [h2, hv, Option.toList_some, hlist, h5, hv]
        simp [List.append_assoc]

theorem chanInv_run {α : Type} {k N : Nat} (hk : N = 2 ^ k)
    (ops : List (ChanOp α)) {t : ChanTrace α} (h : ChanInv N t) :
    ChanInv N (runTrace N ops t) := by
  induction ops generalizing t with
  | nil => exact h
  | cons op ops ih =>
      exact ih (chanInv_step hk op h)

/-- C1.  For every power-of-two capacity and every operation sequence run
from the fresh channel, the successfully sent items are exactly the
successfully received items followed by the still-live queue, so the
receives reproduce the sends in FIFO order with no duplication and no
omission, and (applied to any prefix of the sequence) the next successful
receive yields the oldest not-yet-received item. -/
theorem spsc_fifo_order {α : Type} (k N : Nat) (hk : N = 2 ^ k)
    (ops : List (ChanOp α)) :
    (runTrace N ops (initTrace α)).sent.map some
      = (runTrace N ops (initTrace α)).received.map some
        ++ liveOpt N (runTrace N ops (initTrace α)).state
    ∧ ∃ rest, (runTrace N ops (initTrace α)).sent
        = (runTrace N ops (initTrace α)).received ++ rest := by
  have hN : 0 < N := hk ▸ Nat.two_pow_pos k
  have h := chanInv_run hk ops (chanInv_init hN)
  obtain ⟨-, -, hlist⟩ := h
  refine ⟨hlist, (runTrace N ops (initTrace α)).sent.drop
    (runTrace N ops (initTrace α)).received.length, ?_⟩
  have htake : (runTrace N ops (initTrace α)).sent.take
      (runTrace N ops (initTrace α)).received.length
      = (runTrace N ops (initTrace α)).received := by
    apply List.map_injective_iff.mpr (Option.some_injective α)
    rw [List.map_take, hlist]
    have hlen : ((runTrace N ops (initTrace α)).received.map some).length
        = (runTrace N ops (initTrace α)).received.length :=
      List.length_map _ _
    rw [← hlen, List.take_left]
  conv_lhs => rw [← List.take_append_drop
    ((runTrace N ops (initTrace α)).received.length)
    ((runTrace N ops (initTrace α)).sent)]
  rw [htake]

/-- Witness for C1 at capacity 4 with the operation sequence
push 1, push 2, pop, push 3, pop. -/
theorem spsc_fifo_order_witness :
    (4 = 2 ^ 2)
    ∧ ((runTrace 4 [ChanOp.push 1, ChanOp.push 2, ChanOp.pop,
          ChanOp.push 3, ChanOp.pop] (initTrace Nat)).sent.map some
        = (runTrace 4 [ChanOp.push 1, ChanOp.push 2, ChanOp.pop,
            ChanOp.push 3, ChanOp.pop] (initTrace Nat)).received.map some
          ++ liveOpt 4 (runTrace 4 [ChanOp.push 1, ChanOp.push 2, ChanOp.pop,
              ChanOp.push 3, ChanOp.pop] (initTrace Nat)).state
      ∧ ∃ rest, (runTrace 4 [ChanOp.push 1, ChanOp.push 2, ChanOp.pop,
            ChanOp.push 3, ChanOp.pop] (initTrace Nat)).sent
          = (runTrace 4 [ChanOp.push 1, ChanOp.push 2, ChanOp.pop,
              ChanOp.push 3, ChanOp.pop] (initTrace Nat)).received ++ rest) :=
  ⟨rfl, spsc_fifo_order 2 4 rfl _⟩

/-! ### Capacity bound -/

/-- From a state with head cursor 0, pushing a list that fits below the
capacity succeeds entirely and advances the tail by the list length. -/
theorem pushAll_ok {α : Type} {k N : Nat} (hk : N = 2 ^ k) :
    ∀ (xs : List α) (s : SPSCRingBuffer α), s.head = 0 →
      s.tail + xs.length < N →
      ∃ b, pushAll N xs s
        = (true, { head := 0, tail := s.tail + xs.length, buffer := b }) := by
  intro xs
  induction xs with
  | nil =>
      intro s hh ht
      obtain ⟨h0, t0, b0⟩ := s
      simp only at hh
      subst hh
      exact ⟨b0, by simp [pushAll]⟩
  | cons x xs ih =>
      intro s hh ht
      have hca : ∀ c, cursorAdvance N c = (c + 1) % N := by
        intro c
        rw [hk, cursorAdvance_two_pow]
      have hlen : s.tail + 1 < N := by
        simp only [List.length_cons] at ht
        omega
      have hnt : cursorAdvance N s.tail = s.tail + 1 := by
        rw [hca]
        exact Nat.mod_eq_of_lt hlen
      have hne : cursorAdvance N s.tail ≠ s.head := by
        rw [hnt, hh]
        omega
      have hpush : try_push N x s
          = (true, { head := s.head, tail := s.tail + 1,
                     buffer := slotWrite s.buffer s.tail (some x) }) := by
        simp only [try_push]
        rw [if_neg hne, hnt]
      have hstep : pushAll N (x :: xs) s
          = pushAll N xs { head := s.head, tail := s.tail + 1,
                           buffer := slotWrite s.buffer s.tail (some x) } := by
        simp [pushAll, hpush]
      rw [hstep]
      obtain ⟨b, hres⟩ := ih
        { head := s.head, tail := s.tail + 1,
          buffer := slotWrite s.buffer s.tail (some x) }
        hh (by simp only [List.length_cons] at ht; simp; omega)
      refine ⟨b, ?_⟩
      rw [hres]
      have harith : s.tail + 1 + xs.length = s.tail + (x :: xs).length := by
        simp [List.length_cons]
        omega
      rw [harith]

/-- C2.  On a fresh power-of-two-capacity channel (capacity at least 2),
`try_pop` fails; pushing any `N - 1` items succeeds entirely; the `N`-th
push fails and leaves the state unchanged; after that, one pop succeeds
and the next push succeeds again. -/
theorem capacity_bound {α : Type} (k N : Nat) (hk : N = 2 ^ k)
    (h2 : 2 ≤ N) (xs : List α) (hlen : xs.length = N - 1) (y z : α) :
    (try_pop N (initBuffer α)).1 = false
    ∧ (pushAll N xs (initBuffer α)).1 = true
    ∧ (try_push N y (pushAll N xs (initBuffer α)).2).1 = false
    ∧ (try_push N y (pushAll N xs (initBuffer α)).2).2
        = (pushAll N xs (initBuffer α)).2
    ∧ (try_pop N (pushAll N xs (initBuffer α)).2).1 = true
    ∧ (try_push N z (try_pop N (pushAll N xs (initBuffer α)).2).2.2).1
        = true := by
  have hca : ∀ c, cursorAdvance N c = (c + 1) % N := by
    intro c
    rw [hk, cursorAdvance_two_pow]
  obtain ⟨b, hres⟩ := pushAll_ok hk xs (initBuffer α) rfl
    (by simp [initBuffer, hlen]; omega)
  rw [show (initBuffer α).tail + xs.length = N - 1 by
    simp [initBuffer, hlen]] at hres
  have hfullAdv : cursorAdvance N (N - 1) = 0 := by
    rw [hca, show N - 1 + 1 = N by omega, Nat.mod_self]
  have hpop : try_pop N (initBuffer α) = (false, none, initBuffer α) := by
    simp [try_pop, initBuffer]
  have hfull : try_push N y (pushAll N xs (initBuffer α)).2
      = (false, (pushAll N xs (initBuffer α)).2) := by
    rw [hres]
    simp only [try_push]
    rw [if_pos (by rw [hfullAdv])]
  have hpop2 : try_pop N (pushAll N xs (initBuffer α)).2
      = (true, b 0,
         { head := cursorAdvance N 0, tail := N - 1,
           buffer := slotWrite b 0 none }) := by
    rw [hres]
    simp only [try_pop]
    rw [if_neg (by omega)]
  have hadv0 : cursorAdvance N 0 = 1 := by
    rw [hca]
    exact Nat.mod_eq_of_lt (by omega)
  have hpush2 : (try_push N z (try_pop N (pushAll N xs (initBuffer α)).2).2.2).1
      = true := by
    rw [hpop2]
    simp only [try_push]
    rw [if_neg (by rw [hfullAdv, hadv0]; omega)]
  refine ⟨by rw [hpop], by rw [hres], by rw [hfull], by rw [hfull], ?_, hpush2⟩
  rw [hpop2]

/-- Witness for C2 at capacity 4: pops fail fresh, pushes of three items
succeed, a fourth push fails without changing state, and a pop re-enables
pushing. -/
theorem capacity_bound_witness :
    (4 = 2 ^ 2) ∧ (2 ≤ 4) ∧ ([1, 2, 3].length = 4 - 1)
    ∧ ((try_pop 4 (initBuffer Nat)).1 = false
      ∧ (pushAll 4 [1, 2, 3] (initBuffer Nat)).1 = true
      ∧ (try_push 4 9 (pushAll 4 [1, 2, 3] (initBuffer Nat)).2).1 = false
      ∧ (try_push 4 9 (pushAll 4 [1, 2, 3] (initBuffer Nat)).2).2
          = (pushAll 4 [1, 2, 3] (initBuffer Nat)).2
      ∧ (try_pop 4 (pushAll 4 [1, 2, 3] (initBuffer Nat)).2).1 = true
      ∧ (try_push 4 7
          (try_pop 4 (pushAll 4 [1, 2, 3] (initBuffer Nat)).2).2.2).1
          = true) :=
  ⟨rfl, by decide, rfl, capacity_bound 2 4 rfl (by decide) [1, 2, 3] rfl 9 7⟩

/-! ### Failure leaves the state unchanged -/

/-- C3.  If `try_push` finds the buffer full (`next_tail == head_`) it
returns `false` and the entire state — both cursors and every slot — is
unchanged, so the caller retains the item; symmetrically, if `try_pop`
finds the buffer empty (`head_ == tail_`) it returns `false` with no item
and the entire state is unchanged.  This holds for every state and every
capacity, directly from the two early returns. -/
theorem fail_leaves_state_unchanged {α : Type} (N : Nat) (x : α)
    (s : SPSCRingBuffer α) :
    (cursorAdvance N s.tail = s.head → try_push N x s = (false, s))
    ∧ (s.head = s.tail → try_pop N s = (false, none, s)) := by
  constructor
  · intro hfull
    simp only [try_push]
    rw [if_pos hfull]
  · intro hemp
    simp only [try_pop]
    rw [if_pos hemp]

/-- Witness for C3: a full buffer of capacity 2 rejects a push unchanged,
and an empty buffer of capacity 2 rejects a pop unchanged. -/
theorem fail_leaves_state_unchanged_witness :
    try_push 2 5 { head := 0, tail := 1, buffer := fun _ => (none : Option Nat) }
      = (false, { head := 0, tail := 1, buffer := fun _ => none })
    ∧ try_pop 2 { head := 0, tail := 0, buffer := fun _ => (none : Option Nat) }
      = (false, none, { head := 0, tail := 0, buffer := fun _ => none }) :=
  ⟨(fail_leaves_state_unchanged 2 5 _).1 rfl,
   (fail_leaves_state_unchanged 2 5 _).2 rfl⟩

/-! ### Round-trip -/

/-- Counterexample to C5 as stated.  The state reached by pushing 1 into
a fresh capacity-4 channel has free slots (the subsequent push of 2
succeeds), yet the receive immediately following that successful send of
2 returns the older item 1, not 2. -/
theorem roundtrip_cex :
    (try_push 4 2 (try_push 4 1 (initBuffer Nat)).2).1 = true
    ∧ (try_pop 4 (try_push 4 2 (try_push 4 1 (initBuffer Nat)).2).2).1 = true
    ∧ (try_pop 4 (try_push 4 2 (try_push 4 1 (initBuffer Nat)).2).2).2.1
        = some 1
    ∧ (some 1 : Option Nat) ≠ some 2 := by
  refine ⟨rfl, rfl, rfl, by decide⟩

/-- C5 amended: for every item `x` and every EMPTY channel state (head
cursor equal to tail cursor, cursor in range) of power-of-two capacity at
least 2, `try_push x` succeeds and the immediately following `try_pop`
succeeds and yields exactly `x`. -/
theorem roundtrip_from_empty {α : Type} (k N : Nat) (hk : N = 2 ^ k)
    (h2 : 2 ≤ N) (x : α) (s : SPSCRingBuffer α) (he : s.head = s.tail)
    (hlt : s.tail < N) :
    (try_push N x s).1 = true
    ∧ (try_pop N (try_push N x s).2).1 = true
    ∧ (try_pop N (try_push N x s).2).2.1 = some x := by
  have hca : ∀ c, cursorAdvance N c = (c + 1) % N := by
    intro c
    rw [hk, cursorAdvance_two_pow]
  have hne : cursorAdvance N s.tail ≠ s.head := by
    rw [hca, succ_mod_closed hlt]
    split_ifs <;> omega
  have hpush : try_push N x s
      = (true, { head := s.head, tail := cursorAdvance N s.tail,
                 buffer := slotWrite s.buffer s.tail (some x) }) := by
    simp only [try_push]
    rw [if_neg hne]
  have hne2 : s.head ≠ cursorAdvance N s.tail := by
    rw [hca, succ_mod_closed hlt]
    split_ifs <;> omega
  refine ⟨by rw [hpush], ?_, ?_⟩
  · rw [hpush]
    simp only [try_pop]
    rw [if_neg hne2]
  · rw [hpush]
    simp only [try_pop]
    rw [if_neg hne2]
    show slotWrite s.buffer s.tail (some x) s.head = some x
    unfold slotWrite
    rw [if_pos he]

/-- Witness for the amended C5 on a fresh capacity-4 channel with
item 42. -/
theorem roundtrip_from_empty_witness :
    (4 = 2 ^ 2) ∧ (2 ≤ 4)
    ∧ ((initBuffer Nat).head = (initBuffer Nat).tail)
    ∧ ((initBuffer Nat).tail < 4)
    ∧ ((try_push 4 42 (initBuffer Nat)).1 = true
      ∧ (try_pop 4 (try_push 4 42 (initBuffer Nat)).2).1 = true
      ∧ (try_pop 4 (try_push 4 42 (initBuffer Nat)).2).2.1 = some 42) :=
  ⟨rfl, by decide, rfl, by decide,
   roundtrip_from_empty 2 4 rfl (by decide) 42 (initBuffer Nat) rfl (by decide)⟩

/-! ### Cursor invariant -/

/-- C6.  In every state reachable from the fresh channel by `try_push` /
`try_pop` operations, both cursors stay below the capacity, the cursor
distance `(tail + N - head) % N` is at most `N - 1`, and hence at most
`N - 1` elements are live: the write cursor never wraps past the read
cursor. -/
theorem cursor_invariant {α : Type} (k N : Nat) (hk : N = 2 ^ k)
    (ops : List (ChanOp α)) :
    (runTrace N ops (initTrace α)).state.head < N
    ∧ (runTrace N ops (initTrace α)).state.tail < N
    ∧ ((runTrace N ops (initTrace α)).state.tail + N
        - (runTrace N ops (initTrace α)).state.head) % N ≤ N - 1
    ∧ (liveOpt N (runTrace N ops (initTrace α)).state).length ≤ N - 1 := by
  have hN : 0 < N := hk ▸ Nat.two_pow_pos k
  obtain ⟨hh, ht, -⟩ := chanInv_run hk ops (chanInv_init hN)
  have hd : distN N (runTrace N ops (initTrace α)).state.tail
      (runTrace N ops (initTrace α)).state.head < N := distN_lt hN _ _
  refine ⟨hh, ht, ?_, ?_⟩
  · unfold distN at hd
    omega
  · simp only [liveOpt, List.length_map, List.length_range, liveCount]
    omega

/-- Witness for C6 at capacity 4 after pushes and a pop. -/
theorem cursor_invariant_witness :
    (4 = 2 ^ 2)
    ∧ ((runTrace 4 [ChanOp.push 5, ChanOp.push 6, ChanOp.pop]
          (initTrace Nat)).state.head < 4
      ∧ (runTrace 4 [ChanOp.push 5, ChanOp.push 6, ChanOp.pop]
          (initTrace Nat)).state.tail < 4
      ∧ ((runTrace 4 [ChanOp.push 5, ChanOp.push 6, ChanOp.pop]
            (initTrace Nat)).state.tail + 4
          - (runTrace 4 [ChanOp.push 5, ChanOp.push 6, ChanOp.pop]
              (initTrace Nat)).state.head) % 4 ≤ 4 - 1
      ∧ (liveOpt 4 (runTrace 4 [ChanOp.push 5, ChanOp.push 6, ChanOp.pop]
            (initTrace Nat)).state).length ≤ 4 - 1) :=
  ⟨rfl, cursor_invariant 2 4 rfl _⟩

/-! ### Bitmask advance equals modulo advance -/

/-- C7.  For every power-of-two capacity `N` and every cursor value `c`,
the bitmask advance `(c + 1) & (N - 1)` used by `try_push` and `try_pop`
equals the modulo advance `(c + 1) % N`, so the bitmask implementation
has the same wrap-around semantics as modulo division. -/
theorem bitmask_advance_eq_mod (k N c : Nat) (hk : N = 2 ^ k) :
    cursorAdvance N c = (c + 1) % N := by
  rw [hk, cursorAdvance_two_pow]

/-- Witness for C7 at capacity 8, cursor 5. -/
theorem bitmask_advance_eq_mod_witness :
    (8 = 2 ^ 3) ∧ cursorAdvance 8 5 = (5 + 1) % 8 :=
  ⟨rfl, bitmask_advance_eq_mod 3 8 5 rfl⟩

/-! ### The compile-time capacity check -/

/-- A number lying strictly between consecutive powers of two has bit `j`
set. -/
theorem testBit_of_between {m j : Nat} (h1 : 2 ^ j ≤ m)
    (h2 : m < 2 ^ (j + 1)) : m.testBit j = true := by
  rw [Nat.testBit_to_div_mod]
  have hp : 2 ^ (j + 1) = 2 ^ j * 2 := by ring
  have hdiv : m / 2 ^ j = 1 := by
    apply Nat.div_eq_of_lt_le
    · simpa using h1
    · omega
  rw [hdiv]
  decide

/-- Counterexample to C8 as stated: the code's `static_assert` condition
accepts `Capacity = 1`, although the spec requires every capacity other
than a power of two that is at least 2 — including `N = 1` — to be
rejected. -/
theorem capacity_check_cex :
    capacityCheck 1 = true ∧ ¬ capacitySpecRequirement 1 := by
  constructor
  · decide
  · intro h
    exact absurd h.1 (by decide)

/-- C8 amended: the `static_assert` accepts exactly the powers of two
(including `2 ^ 0 = 1`); `N = 0` and all non-powers of two are rejected,
but `N = 1` is accepted. -/
theorem capacity_check_iff (N : Nat) :
    capacityCheck N = true ↔ ∃ j, N = 2 ^ j := by
  constructor
  · intro h
    simp only [capacityCheck, Bool.and_eq_true, bne_iff_ne, Ne,
      beq_iff_eq] at h
    obtain ⟨hne, hand⟩ := h
    refine ⟨Nat.log 2 N, ?_⟩
    by_contra hcon
    have h1 : 2 ^ Nat.log 2 N ≤ N := Nat.pow_log_le_self 2 hne
    have h2 : N < 2 ^ (Nat.log 2 N + 1) :=
      Nat.lt_pow_succ_log_self (by omega) N
    have h3 : 2 ^ Nat.log 2 N < N := lt_of_le_of_ne h1 fun hEq => hcon hEq.symm
    have hbitN : N.testBit (Nat.log 2 N) = true :=
      testBit_of_between h1 h2
    have hbitP : (N - 1).testBit (Nat.log 2 N) = true :=
      testBit_of_between (by omega) (by omega)
    have hzero := Nat.testBit_and N (N - 1) (Nat.log 2 N)
    rw [hand, Nat.zero_testBit, hbitN, hbitP] at hzero
    exact Bool.noConfusion hzero
  · rintro ⟨j, rfl⟩
    have h1 : (2 : Nat) ^ j ≠ 0 := (Nat.two_pow_pos j).ne'
    have h2 : 2 ^ j &&& (2 ^ j - 1) = 0 := by
      rw [Nat.and_pow_two_sub_one_eq_mod, Nat.mod_self]
    simp [capacityCheck, h1, h2]

/-! ### Capacity 1 makes the channel unusable -/

/-- C10.  A channel instantiated with `Capacity = 1` (accepted by the
`static_assert`) never leaves its initial state under any operation
sequence: every `try_push` fails because the advanced write cursor always
equals the read cursor, and every `try_pop` fails because the cursors are
always equal; the channel can never hold an item. -/
theorem capacity_one_unusable {α : Type} (ops : List (ChanOp α)) (x : α) :
    (runTrace 1 ops (initTrace α)).state = initBuffer α
    ∧ (try_push 1 x (runTrace 1 ops (initTrace α)).state).1 = false
    ∧ (try_pop 1 (runTrace 1 ops (initTrace α)).state).1 = false := by
  have key : ∀ (ops : List (ChanOp α)) (t : ChanTrace α),
      t.state = initBuffer α → (runTrace 1 ops t).state = initBuffer α := by
    intro ops
    induction ops with
    | nil => intro t ht; exact ht
    | cons op ops ih =>
        intro t ht
        show (runTrace 1 ops (stepOp 1 t op)).state = initBuffer α
        apply ih
        cases op with
        | push y =>
            show (try_push 1 y t.state).2 = initBuffer α
            rw [ht]
            simp [try_push, initBuffer, show cursorAdvance 1 0 = 0 from by decide]
        | pop =>
            show (try_pop 1 t.state).2.2 = initBuffer α
            rw [ht]
            simp [try_pop, initBuffer]
  have hstate := key ops (initTrace α) rfl
  refine ⟨hstate, ?_, ?_⟩
  · rw [hstate]
    simp [try_push, initBuffer, show cursorAdvance 1 0 = 0 from by decide]
  · rw [hstate]
    simp [try_pop, initBuffer]

/-! ### Part 2: the SIMD elementwise-add kernels -/

/-- Write `v` at index `i` of an array modelled as a function. -/
def arrayWrite {α : Type} (f : Nat → α) (i : Nat) (v : α) : Nat → α :=
  fun j => if j = i then v else f j

/-- The scalar fallback `MathKernel<>::add` (intrinsics.h lines 58-60):
`for (size_t i = 0; i < n; ++i) out[i] = a[i] + b[i];`. -/
def scalar_add {α : Type} [Add α] (a b : Nat → α) (n : Nat)
    (out : Nat → α) : Nat → α :=
  (List.range n).foldl (fun o i => arrayWrite o i (a i + b i)) out

/-- One full-width `_mm512_loadu_pd` / `_mm512_add_pd` /
`_mm512_storeu_pd` group: writes `out[i + j] = a[i + j] + b[i + j]` for
the 8 lanes `j = 0..7`. -/
def store8Add {α : Type} [Add α] (a b : Nat → α) (i : Nat)
    (out : Nat → α) : Nat → α :=
  (List.range 8).foldl
    (fun o j => arrayWrite o (i + j) (a (i + j) + b (i + j))) out

/-- The masked cleanup `_mm512_maskz_loadu_pd` / `_mm512_add_pd` /
`_mm512_mask_storeu_pd`: lane `j` (of the 8 lanes) is loaded, added and
stored iff bit `j` of the 8-bit mask is set; masked-off lanes leave
`out` untouched. -/
def maskStore8Add {α : Type} [Add α] (a b : Nat → α) (mask i : Nat)
    (out : Nat → α) : Nat → α :=
  (List.range 8).foldl
    (fun o j => if mask.testBit j then
        arrayWrite o (i + j) (a (i + j) + b (i + j))
      else o) out

/-- The 4-times-unrolled main loop of `MathKernel<ISA::AVX512_F>::add`
(intrinsics.h lines 74-94): while `i + 31 < n`, process 32 doubles as
four 8-lane groups and advance `i` by 32.  Returns the final `i` and the
output array.  The first `Nat` argument is fuel; `fuel = n` (as passed by
`avx512_add`) is enough for the loop to run to its exit condition, since
each iteration consumes 32 of it. -/
def avx512MainLoop {α : Type} [Add α] (a b : Nat → α) (n : Nat) :
    Nat → Nat → (Nat → α) → Nat × (Nat → α)
  | 0, i, out => (i, out)
  | fuel + 1, i, out =>
      if i + 31 < n then
        avx512MainLoop a b n fuel (i + 32)
          (store8Add a b (i + 24) (store8Add a b (i + 16)
            (store8Add a b (i + 8) (store8Add a b i out))))
      else (i, out)

/-- `MathKernel<ISA::AVX512_F>::add` (intrinsics.h lines 70-105): the
unrolled main loop followed by the masked cleanup
`uint8_t remaining = n - i; __mmask8 mask = (1 << remaining) - 1;`.
`__mmask8` is an 8-bit type, so the mask value is reduced modulo `2^8`. -/
def avx512_add {α : Type} [Add α] (a b : Nat → α) (n : Nat)
    (out : Nat → α) : Nat → α :=
  let r := avx512MainLoop a b n n 0 out
  if r.1 < n then
    let remaining := n - r.1
    let mask := ((1 <<< remaining) - 1) % 256
    maskStore8Add a b mask r.1 r.2
  else r.2

/-- C9.  The AVX-512 specialisation of elementwise add does NOT match the
scalar baseline for every length: with `n = 9` and all-ones inputs the
main loop does not run (`0 + 31 < 9` fails), the cleanup computes
`remaining = 9`, and the 8-bit mask `(1 << 9) - 1` truncates to `0xFF`,
so only lanes 0..7 are written and `out[8]` keeps its prior value 0,
while the scalar kernel writes `out[8] = a[8] + b[8] = 2`. -/
theorem avx512_add_diverges_from_scalar :
    avx512_add (fun _ => (1 : Nat)) (fun _ => 1) 9 (fun _ => 0) 8 = 0
    ∧ scalar_add (fun _ => (1 : Nat)) (fun _ => 1) 9 (fun _ => 0) 8 = 2
    ∧ avx512_add (fun _ => (1 : Nat)) (fun _ => 1) 9 (fun _ => 0) 8
      ≠ scalar_add (fun _ => (1 : Nat)) (fun _ => 1) 9 (fun _ => 0) 8 := by
  refine ⟨by decide, by decide, by decide⟩
